import Mathlib

/-!
Shallow embedding of the btrsnap snapshot lifecycle core (create / list /
delete / cleanup of BTRFS snapshots) together with theorems checking the
specified properties of the name codec, the retention decision, and the
per-operation error policies against this embedding.

The embedding translates the Rust sources:
 - decimal formatting of an `i64` timestamp (`format!("{}-{}", name, ts)`)
   and Rust's `str::parse::<i64>` (sign, digits, 64-bit overflow check);
 - `parse_timestamp_from_name` (main.rs): the fixed-prefix name decoder;
 - `create_snapshot` / `Create::execute` (create.rs);
 - `delete_snapshot` / `Delete::execute` (delete.rs);
 - `list_snapshot` / `List::execute` (list.rs);
 - `cleanup_snapshot` in its two variants (main.rs: timestamp-decoding;
   cleanup.rs: mtime-based) and `scan_snapshots` (utils.rs).

External effects (the btrfsutil volume store, the filesystem) are modelled
by per-entry oracles recording whether each call succeeds, and operations
return the trace of calls / created or deleted entries they performed.
-/

namespace Btrsnap

/-- Decimal digits of a natural number, most significant first, with an
explicit fuel argument so the definition is structural (fuel `n + 1` always
suffices for input `n`). -/
def natDigitsF : Nat → Nat → List Char
  | 0, _ => []
  | fuel + 1, n =>
    if n < 10 then [Char.ofNat (48 + n)]
    else natDigitsF fuel (n / 10) ++ [Char.ofNat (48 + n % 10)]

/-- Decimal digits of a natural number, most significant first. -/
def natDigits (n : Nat) : List Char := natDigitsF (n + 1) n

/-- Decimal representation of an `i64` value, as produced by Rust's
`format!("{}", ts)` for `ts : i64`. -/
def intChars (t : Int) : List Char :=
  if t < 0 then '-' :: natDigits (-t).toNat else natDigits t.toNat

/-- String form of `intChars`. -/
def intStr (t : Int) : String := String.mk (intChars t)

/-- Digit-accumulating loop of Rust's integer parsing: consume decimal
digits left to right, failing on any non-digit character. -/
def readDigits : List Char → Nat → Option Nat
  | [], acc => some acc
  | c :: cs, acc =>
    if c.isDigit then readDigits cs (acc * 10 + (c.toNat - 48)) else none

/-- Parse a nonempty all-digit string as a natural number (no sign). -/
def parseNat? (cs : List Char) : Option Nat :=
  match cs with
  | [] => none
  | c :: rest => readDigits (c :: rest) 0

/-- Largest `i64` value, `2^63 - 1`. -/
def i64Max : Nat := 2 ^ 63 - 1

/-- Absolute value of the smallest `i64` value, `2^63`. -/
def i64MinAbs : Nat := 2 ^ 63

/-- Model of Rust's `str::parse::<i64>` on a character list: an optional
sign followed by at least one decimal digit, rejecting values outside the
`i64` range. -/
def parseI64? (cs : List Char) : Option Int :=
  match cs with
  | [] => none
  | c :: rest =>
    if c = '+' then
      match parseNat? rest with
      | some d => if d ≤ i64Max then some (Int.ofNat d) else none
      | none => none
    else if c = '-' then
      match parseNat? rest with
      | some d => if d ≤ i64MinAbs then some (-(Int.ofNat d)) else none
      | none => none
    else
      match parseNat? (c :: rest) with
      | some d => if d ≤ i64Max then some (Int.ofNat d) else none
      | none => none

/-- Model of Rust's `str::parse::<i64>` on a string. -/
def parse_i64 (s : String) : Option Int := parseI64? s.data

/-- Remove a leading pattern `p` from `cs`, returning the remainder;
models Rust's `str::strip_prefix`. -/
def stripPre : List Char → List Char → Option (List Char)
  | [], s => some s
  | _ :: _, [] => none
  | a :: p, b :: s => if a = b then stripPre p s else none

/-- Character-list core of `parse_timestamp_from_name` (main.rs): try the
three fixed patterns `@nixos-`, `@storage-`, `@dotfiles-` in order; on the
first match, parse the remainder as an `i64` and return that result. -/
def parseTsChars (cs : List Char) : Option Int :=
  match stripPre "@nixos-".data cs with
  | some rest => parseI64? rest
  | none =>
    match stripPre "@storage-".data cs with
    | some rest => parseI64? rest
    | none =>
      match stripPre "@dotfiles-".data cs with
      | some rest => parseI64? rest
      | none => none

/-- The name decoder `parse_timestamp_from_name` of main.rs. -/
def parse_timestamp_from_name (name : String) : Option Int :=
  parseTsChars name.data

/-- Snapshot entry name computed by `create_snapshot`:
`format!("{}-{}", subvol_name, ts)`. -/
def snapName (subvolName : String) (ts : Int) : String :=
  subvolName ++ "-" ++ intStr ts

/-- Source name derivation of `create_snapshot`:
`sv.file_name().and_then(|n| n.to_str()).unwrap_or("unknown")`.
`none` models a path with no final segment; `some none` models a final
segment that is not valid UTF-8. -/
def subvolNameOf (fileName : Option (Option String)) : String :=
  match fileName with
  | some (some s) => s
  | some none => "unknown"
  | none => "unknown"

/-- A chrono `DateTime` value: seconds since the Unix epoch plus a
subsecond nanosecond component, compared lexicographically. -/
structure DateTime where
  secs : Int
  nanos : Nat
deriving DecidableEq

/-- Comparison `a >= b` on `DateTime` values (chrono's derived ordering:
seconds first, then nanoseconds). -/
def dtGe (a b : DateTime) : Bool :=
  if b.secs < a.secs then true
  else if a.secs = b.secs then decide (b.nanos ≤ a.nanos)
  else false

/-- Smallest epoch-second value representable by a chrono `DateTime`
(timestamp of `-262144-01-01T00:00:00Z`, the minimum chrono date). -/
def chronoMinTs : Int := -8334632851200

/-- Largest epoch-second value representable by a chrono `DateTime`
(timestamp of `262143-12-31T23:59:59Z`, the maximum chrono date). -/
def chronoMaxTs : Int := 8210298412799

/-- Model of `Utc.timestamp_opt(ts, 0).single()`: `some` of the instant
when `ts` is within chrono's representable range, `none` otherwise. -/
def timestampOptSingle (ts : Int) : Option DateTime :=
  if chronoMinTs ≤ ts ∧ ts ≤ chronoMaxTs then some ⟨ts, 0⟩ else none

/-- Rust's derived `>=` on `Option` values (`None` is below every
`Some`), as used in `... .single() >= Some(cutoff)`. -/
def optGe (a b : Option DateTime) : Bool :=
  match a, b with
  | none, none => true
  | none, some _ => false
  | some _, none => true
  | some x, some y => dtGe x y

/-- Result of processing one candidate entry in main.rs's
`cleanup_snapshot`: skipped with `Ok(())`, deleted, or failed (the delete
call returned an error, which propagates). -/
inductive CleanupAct where
  | skipped
  | deleted
  | failed
deriving DecidableEq

/-- A directory entry as seen by the cleanup scan of main.rs, with
oracles for the volume store calls made on it: `fileName` is
`entry.path().file_name().and_then(|n| n.to_str())`, `getOk` tells
whether `Subvolume::get` succeeds, `deleteOk` whether `delete` does. -/
structure ScanEntry where
  fileName : Option String
  getOk : Bool
  deleteOk : Bool

namespace MainRs

/-- The `cleanup_snapshot` of main.rs: recover the entry's name, decode a
timestamp from it (skip on failure), skip when the decoded instant is
`>=` the cutoff, skip when `Subvolume::get` fails, otherwise delete. -/
def cleanup_snapshot (e : ScanEntry) (cutoff : DateTime) : CleanupAct :=
  match e.fileName with
  | none => .skipped
  | some name =>
    match parse_timestamp_from_name name with
    | none => .skipped
    | some ts =>
      if optGe (timestampOptSingle ts) (some cutoff) then .skipped
      else if e.getOk = false then .skipped
      else if e.deleteOk then .deleted
      else .failed

end MainRs

/-- A directory entry as seen by the cleanup scan of cleanup.rs: `mtime`
is the result of `fs::metadata(..).modified()` (`none` when either call
fails), plus the volume store oracles. -/
structure FsEntry where
  mtime : Option DateTime
  getOk : Bool
  deleteOk : Bool

/-- Classification of a successfully processed entry in cleanup.rs's
`cleanup_snapshot`. -/
inductive Outcome where
  | kept
  | notSubvol
  | deleted
deriving DecidableEq

namespace CleanupRs

/-- The `cleanup_snapshot` of cleanup.rs: read the entry's modification
time (an error when that fails), keep entries with `mtime >= cutoff`,
skip entries that are not subvolumes, otherwise delete; a delete failure
is returned as an error. -/
def cleanup_snapshot (e : FsEntry) (cutoff : DateTime) : Except String Outcome :=
  match e.mtime with
  | none => .error "metadata"
  | some mtime =>
    if dtGe mtime cutoff then .ok .kept
    else if e.getOk = false then .ok .notSubvol
    else if e.deleteOk then .ok .deleted
    else .error "delete"

end CleanupRs

/-- The `scan_snapshots` of utils.rs: run the callback on each candidate
entry in scan order, propagating the first error (`callback(entry)?`),
which abandons all later entries. The returned list collects the
callback's per-entry results. -/
def scan_snapshots {α β : Type} (f : α → Except String β) :
    List α → Except String (List β)
  | [] => .ok []
  | e :: rest =>
    match f e with
    | .error s => .error s
    | .ok o =>
      match scan_snapshots f rest with
      | .error s => .error s
      | .ok os => .ok (o :: os)

/-- The body of `Cleanup::execute` (cleanup.rs) after the cutoff is
computed: sweep the scanned entries with `cleanup_snapshot`. -/
def cleanupExecute (entries : List FsEntry) (cutoff : DateTime) :
    Except String (List Outcome) :=
  scan_snapshots (fun e => CleanupRs.cleanup_snapshot e cutoff) entries

/-- A source subvolume passed to `Create::execute`, with its final path
segment (`file_name`, see `subvolNameOf`) and oracles for the volume
store calls `get` and `snapshot` and the `.ignore` marker creation. -/
structure SubvolSrc where
  fileName : Option (Option String)
  getOk : Bool
  snapshotOk : Bool
  ignoreOk : Bool

/-- The `create_snapshot` of create.rs for one source: returns the names
of entries that now exist under the snapshot directory and whether the
call succeeded. `get` or `snapshot` failure creates nothing and fails;
an `.ignore` marker failure fails after the entry was created. -/
def create_snapshot (sv : SubvolSrc) (ts : Int) : List String × Bool :=
  let name := snapName (subvolNameOf sv.fileName) ts
  if sv.getOk = false then ([], false)
  else if sv.snapshotOk = false then ([], false)
  else if sv.ignoreOk = false then ([name], false)
  else ([name], true)

/-- The per-source loop of `Create::execute`: process sources in order
with the shared timestamp, stopping at the first failure
(`create_snapshot(...)?`). Returns all entry names created (including by
a partially failed call) and overall success. -/
def createLoop (ts : Int) : List SubvolSrc → List String × Bool
  | [] => ([], true)
  | sv :: rest =>
    match create_snapshot sv ts with
    | (created, false) => (created, false)
    | (created, true) =>
      let (more, ok) := createLoop ts rest
      (created ++ more, ok)

/-- The body of `Create::execute` (create.rs): capture one timestamp
`ts = Utc::now().timestamp()` and snapshot every source with it. -/
def createExecute (subvols : List SubvolSrc) (now : Int) : List String × Bool :=
  let ts := now
  createLoop ts subvols

/-- A delete target for `Delete::execute`, with volume store oracles. -/
structure DelTarget where
  getOk : Bool
  deleteOk : Bool

/-- One volume store call, for call-trace observations. -/
inductive StoreCall where
  | get
  | del
deriving DecidableEq

/-- The per-target loop of `Delete::execute`: `delete_snapshot` does
`get` then `delete`, and any failure aborts the remaining targets.
Returns the trace of volume store calls and the error, if any. -/
def deleteLoop : List DelTarget → List StoreCall × Option String
  | [] => ([], none)
  | t :: rest =>
    if t.getOk = false then ([.get], some "Failed to get subvolume")
    else if t.deleteOk = false then
      ([.get, .del], some "Failed to delete snapshot")
    else
      let (cs, e) := deleteLoop rest
      (.get :: .del :: cs, e)

/-- The body of `Delete::execute` (delete.rs): fail immediately when no
targets were given, otherwise delete each target in order. -/
def deleteExecute (snaps : List DelTarget) : List StoreCall × Option String :=
  if snaps.isEmpty then ([], some "Snapshots not specified")
  else deleteLoop snaps

/-- A directory entry as seen by the listing scan, with the `get` oracle
and the result of `subvol.info()` (`none` models an `info` error;
otherwise the generation and origin transaction id). -/
structure ListEntry where
  path : String
  getOk : Bool
  info : Option (Nat × Nat)

/-- A record printed by `list_snapshot` for a genuine snapshot. -/
structure SnapRecord where
  path : String
  generation : Nat
  otransid : Nat
deriving DecidableEq

/-- The `list_snapshot` of list.rs: skip silently when `Subvolume::get`
fails; when it succeeds, query `info` and emit one record, propagating an
`info` failure as an error (`subvol.info()?`). -/
def list_snapshot (e : ListEntry) : Except String (List SnapRecord) :=
  if e.getOk = false then .ok []
  else
    match e.info with
    | none => .error e.path
    | some (g, o) => .ok [⟨e.path, g, o⟩]

/-- The scan loop of `List::execute` (list.rs): `list_snapshot(entry)?`
on each candidate in order, so an error abandons the remaining
entries. -/
def listExecute : List ListEntry → Except String (List SnapRecord)
  | [] => .ok []
  | e :: rest =>
    match list_snapshot e with
    | .error s => .error s
    | .ok rs =>
      match listExecute rest with
      | .error s => .error s
      | .ok more => .ok (rs ++ more)

/-- Split a character list at the last occurrence of `'-'`, returning
the parts before and after it; `none` when no `'-'` occurs. This is the
rightmost-split the specification describes. -/
def rsplitDash : List Char → Option (List Char × List Char)
  | [] => none
  | c :: rest =>
    match rsplitDash rest with
    | some (pre, suf) => some (c :: pre, suf)
    | none => if c = '-' then some ([], rest) else none

/-- Whether a character list is a decimal integer literal: an optional
leading sign followed by at least one decimal digit. -/
def isIntLit (cs : List Char) : Bool :=
  match cs with
  | [] => false
  | c :: rest =>
    if c = '+' ∨ c = '-' then !rest.isEmpty && rest.all Char.isDigit
    else (c :: rest).all Char.isDigit

/-- Whether decoding the name of a scanned entry fails: either the name
is not valid UTF-8 or `parse_timestamp_from_name` returns nothing. -/
def decodeFails (e : ScanEntry) : Bool :=
  match e.fileName with
  | none => true
  | some n => (parse_timestamp_from_name n).isNone

theorem natDigitsF_congr : ∀ f g n, n < f → n < g → natDigitsF f n = natDigitsF g n := by
  intro f
  induction f with
  | zero => intro g n h; omega
  | succ f ih =>
    intro g n hf hg
    cases g with
    | zero => omega
    | succ g =>
      simp only [natDigitsF]
      by_cases h10 : n < 10
      · simp [h10]
      · simp only [h10, if_false]
        have hn : 0 < n := by omega
        have hd : n / 10 < n := Nat.div_lt_self hn (by omega)
        rw [ih g (n / 10) (by omega) (by omega)]

theorem natDigits_eq (n : Nat) :
    natDigits n = if n < 10 then [Char.ofNat (48 + n)]
      else natDigits (n / 10) ++ [Char.ofNat (48 + n % 10)] := by
  have step : natDigits n = if n < 10 then [Char.ofNat (48 + n)]
      else natDigitsF n (n / 10) ++ [Char.ofNat (48 + n % 10)] := rfl
  rw [step]
  by_cases h10 : n < 10
  · simp [h10]
  · simp only [h10, if_false]
    have hd : n / 10 < n := Nat.div_lt_self (by omega) (by omega)
    rw [natDigitsF_congr n (n / 10 + 1) (n / 10) (by omega) (by omega)]
    rfl

theorem digit_char_spec (d : Nat) (h : d < 10) :
    (Char.ofNat (48 + d)).isDigit = true ∧ (Char.ofNat (48 + d)).toNat = 48 + d := by
  interval_cases d <;> exact ⟨by decide, by decide⟩

theorem natDigits_all_digit (n : Nat) : (natDigits n).all Char.isDigit = true := by
  induction n using Nat.strong_induction_on with
  | _ n ih =>
    rw [natDigits_eq]
    by_cases h10 : n < 10
    · simp [h10, List.all, (digit_char_spec n h10).1]
    · have hd : n / 10 < n := Nat.div_lt_self (by omega) (by omega)
      simp [h10, List.all_append, ih (n / 10) hd, (digit_char_spec (n % 10) (by omega)).1]

theorem natDigits_ne_nil (n : Nat) : natDigits n ≠ [] := by
  rw [natDigits_eq]
  by_cases h10 : n < 10 <;> simp [h10]

theorem readDigits_append (ds es : List Char) (acc : Nat) :
    readDigits (ds ++ es) acc =
      match readDigits ds acc with
      | some v => readDigits es v
      | none => none := by
  induction ds generalizing acc with
  | nil => simp [readDigits]
  | cons c cs ih =>
    simp only [List.cons_append, readDigits]
    by_cases hc : c.isDigit <;> simp [hc, ih]

theorem readDigits_natDigits (n : Nat) : ∀ acc,
    readDigits (natDigits n) acc = some (acc * 10 ^ (natDigits n).length + n) := by
  induction n using Nat.strong_induction_on with
  | _ n ih =>
    intro acc
    rw [natDigits_eq]
    by_cases h10 : n < 10
    · obtain ⟨hdig, htn⟩ := digit_char_spec n h10
      simp [h10, readDigits, hdig, htn]
    · have hd : n / 10 < n := Nat.div_lt_self (by omega) (by omega)
      obtain ⟨hdig, htn⟩ := digit_char_spec (n % 10) (by omega)
      simp only [h10, if_false, readDigits_append, ih (n / 10) hd acc]
      simp only [readDigits, hdig, if_true, htn]
      simp only [List.length_append, List.length_cons, List.length_nil]
      congr 1
      have hdm := Nat.div_add_mod n 10
      rw [pow_succ, ← mul_assoc]
      generalize acc * 10 ^ (natDigits (n / 10)).length = m
      omega

theorem parseNat_natDigits (n : Nat) : parseNat? (natDigits n) = some n := by
  cases h : natDigits n with
  | nil => exact absurd h (natDigits_ne_nil n)
  | cons c cs =>
    have := readDigits_natDigits n 0
    rw [h] at this
    simp only [parseNat?, this]
    simp

theorem isDigit_ne_sign {c : Char} (h : c.isDigit = true) : c ≠ '+' ∧ c ≠ '-' := by
  constructor <;> rintro rfl <;> simp [Char.isDigit] at h

theorem all_digit_not_mem_dash {cs : List Char} (h : cs.all Char.isDigit = true) :
    '-' ∉ cs := by
  intro hm
  have := List.all_eq_true.mp h '-' hm
  simp [Char.isDigit] at this

theorem parseI64_neg_branch (ds : List Char) :
    parseI64? ('-' :: ds) =
      match parseNat? ds with
      | some d => if d ≤ i64MinAbs then some (-(Int.ofNat d)) else none
      | none => none := rfl

theorem parseI64_intChars (t : Int) (h1 : -(2 ^ 63 : Int) ≤ t) (h2 : t ≤ 2 ^ 63 - 1) :
    parseI64? (intChars t) = some t := by
  by_cases ht : t < 0
  · have hic : intChars t = '-' :: natDigits (-t).toNat := by simp [intChars, ht]
    rw [hic, parseI64_neg_branch, parseNat_natDigits]
    have hle : (-t).toNat ≤ i64MinAbs := by simp only [i64MinAbs]; omega
    show (if (-t).toNat ≤ i64MinAbs then some (-(Int.ofNat (-t).toNat)) else none) = some t
    rw [if_pos hle]
    congr 1
    simp only [Int.ofNat_eq_natCast]
    omega
  · have hic : intChars t = natDigits t.toNat := by simp [intChars, ht]
    rw [hic]
    cases hnd : natDigits t.toNat with
    | nil => exact absurd hnd (natDigits_ne_nil _)
    | cons c cs =>
      have hall := natDigits_all_digit t.toNat
      rw [hnd] at hall
      have hc : c.isDigit = true := by
        have := List.all_eq_true.mp hall c (by simp)
        simpa using this
      obtain ⟨hp, hm⟩ := isDigit_ne_sign hc
      have hpn : parseNat? (c :: cs)  = some t.toNat := by
        rw [← hnd]; exact parseNat_natDigits _
      simp only [parseI64?]
      rw [if_neg hp, if_neg hm, hpn]
      have hle : t.toNat ≤ i64Max := by simp only [i64Max]; omega
      show (if t.toNat ≤ i64Max then some (Int.ofNat t.toNat) else none) = some t
      rw [if_pos hle]
      congr 1
      simp only [Int.ofNat_eq_natCast]
      omega

theorem stripPre_eq_some : ∀ (p cs r : List Char), stripPre p cs = some r ↔ cs = p ++ r := by
  intro p
  induction p with
  | nil => intro cs r; simp [stripPre]
  | cons a p ih =>
    intro cs r
    cases cs with
    | nil => simp [stripPre]
    | cons b s =>
      simp only [stripPre]
      by_cases hab : a = b
      · subst hab
        simp [ih s r]
      · rw [if_neg hab]
        simp only [List.cons_append]
        constructor
        · intro h
          exact absurd h (by simp)
        · intro h
          injection h with h1 h2
          exact absurd h1.symm hab

theorem readDigits_all_digit : ∀ (cs : List Char) (acc v : Nat),
    readDigits cs acc = some v → cs.all Char.isDigit = true := by
  intro cs
  induction cs with
  | nil => intro acc v _; rfl
  | cons c cs ih =>
    intro acc v h
    simp only [readDigits] at h
    by_cases hc : c.isDigit
    · rw [if_pos hc] at h
      simp [hc, ih _ _ h]
    · rw [if_neg hc] at h
      exact absurd h (by simp)

theorem parseNat_shape {cs : List Char} {d : Nat} (h : parseNat? cs = some d) :
    cs ≠ [] ∧ cs.all Char.isDigit = true := by
  cases cs with
  | nil => simp [parseNat?] at h
  | cons c rest =>
    simp only [parseNat?] at h
    exact ⟨by simp, readDigits_all_digit _ _ _ h⟩

theorem parseI64_shape {cs : List Char} {t : Int} (h : parseI64? cs = some t) :
    (cs ≠ [] ∧ cs.all Char.isDigit = true) ∨
    (∃ ds, cs = '+' :: ds ∧ ds ≠ [] ∧ ds.all Char.isDigit = true) ∨
    (∃ ds, cs = '-' :: ds ∧ ds ≠ [] ∧ ds.all Char.isDigit = true) := by
  cases cs with
  | nil => simp [parseI64?] at h
  | cons c rest =>
    simp only [parseI64?] at h
    by_cases hp : c = '+'
    · subst hp
      rw [if_pos rfl] at h
      cases hpn : parseNat? rest with
      | none => rw [hpn] at h; simp at h
      | some d =>
        rw [hpn] at h
        obtain ⟨hne, hall⟩ := parseNat_shape hpn
        exact Or.inr (Or.inl ⟨rest, rfl, hne, hall⟩)
    · rw [if_neg hp] at h
      by_cases hm : c = '-'
      · subst hm
        rw [if_pos rfl] at h
        cases hpn : parseNat? rest with
        | none => rw [hpn] at h; simp at h
        | some d =>
          rw [hpn] at h
          obtain ⟨hne, hall⟩ := parseNat_shape hpn
          exact Or.inr (Or.inr ⟨rest, rfl, hne, hall⟩)
      · rw [if_neg hm] at h
        cases hpn : parseNat? (c :: rest) with
        | none => rw [hpn] at h; simp at h
        | some d =>
          rw [hpn] at h
          obtain ⟨hne, hall⟩ := parseNat_shape hpn
          exact Or.inl ⟨hne, hall⟩

theorem rsplitDash_of_not_mem {cs : List Char} (h : '-' ∉ cs) : rsplitDash cs = none := by
  induction cs with
  | nil => rfl
  | cons c rest ih =>
    have hc : c ≠ '-' := fun e => h (by simp [e])
    have hr : '-' ∉ rest := fun m => h (by simp [m])
    simp only [rsplitDash, ih hr]
    simp [hc]

theorem rsplitDash_append {bs : List Char} (hb : '-' ∉ bs) :
    ∀ as, rsplitDash (as ++ '-' :: bs) = some (as, bs) := by
  intro as
  induction as with
  | nil =>
    simp only [List.nil_append, rsplitDash, rsplitDash_of_not_mem hb]
    simp
  | cons a as ih =>
    have step : rsplitDash ((a :: as) ++ '-' :: bs)
        = match rsplitDash (as ++ '-' :: bs) with
          | some (pre, suf) => some (a :: pre, suf)
          | none => if a = '-' then some ([], as ++ '-' :: bs) else none := rfl
    rw [step, ih]

theorem isIntLit_of_digits {cs : List Char} (hne : cs ≠ [])
    (hall : cs.all Char.isDigit = true) : isIntLit cs = true := by
  cases cs with
  | nil => exact absurd rfl hne
  | cons c rest =>
    have hc : c.isDigit = true := by
      have := List.all_eq_true.mp hall c (by simp)
      simpa using this
    obtain ⟨hp, hm⟩ := isDigit_ne_sign hc
    simp only [isIntLit]
    rw [if_neg (by rintro (h | h) <;> [exact hp h; exact hm h])]
    exact hall

theorem isIntLit_sign_digits {ds : List Char} (hne : ds ≠ [])
    (hall : ds.all Char.isDigit = true) : isIntLit ('+' :: ds) = true := by
  simp only [isIntLit]
  simp [hne, hall]

theorem shape_of_branch {cs pI rest : List Char} {t : Int}
    (hcs : cs = (pI ++ ['-']) ++ rest) (hr : parseI64? rest = some t) :
    ∃ q suf, cs = q ++ '-' :: suf ∧ '-' ∉ suf ∧ isIntLit suf = true := by
  rcases parseI64_shape hr with ⟨hne, hall⟩ | ⟨ds, hds, hne, hall⟩ | ⟨ds, hds, hne, hall⟩
  · exact ⟨pI, rest, by simp [hcs], all_digit_not_mem_dash hall,
      isIntLit_of_digits hne hall⟩
  · subst hds
    refine ⟨pI, '+' :: ds, by simp [hcs], ?_, isIntLit_sign_digits hne hall⟩
    simp only [List.mem_cons]
    rintro (h | h)
    · exact absurd h (by decide)
    · exact all_digit_not_mem_dash hall h
  · subst hds
    exact ⟨pI ++ ['-'], ds, by simpa using hcs, all_digit_not_mem_dash hall,
      isIntLit_of_digits hne hall⟩

theorem parseTsChars_some_shape {cs : List Char} {t : Int} (h : parseTsChars cs = some t) :
    ∃ q suf, cs = q ++ '-' :: suf ∧ '-' ∉ suf ∧ isIntLit suf = true := by
  unfold parseTsChars at h
  cases h1 : stripPre "@nixos-".data cs with
  | some rest =>
    rw [h1] at h
    exact shape_of_branch (show cs = ("@nixos".data ++ ['-']) ++ rest from
      (stripPre_eq_some _ _ _).mp h1) h
  | none =>
    rw [h1] at h
    cases h2 : stripPre "@storage-".data cs with
    | some rest =>
      rw [h2] at h
      exact shape_of_branch (show cs = ("@storage".data ++ ['-']) ++ rest from
        (stripPre_eq_some _ _ _).mp h2) h
    | none =>
      rw [h2] at h
      cases h3 : stripPre "@dotfiles-".data cs with
      | some rest =>
        rw [h3] at h
        exact shape_of_branch (show cs = ("@dotfiles".data ++ ['-']) ++ rest from
          (stripPre_eq_some _ _ _).mp h3) h
      | none =>
        rw [h3] at h
        exact absurd h (by simp)

theorem stripPre_none_of_not_isPre {p cs : List Char} (h : p.isPrefixOf cs = false) :
    stripPre p cs = none := by
  cases hsp : stripPre p cs with
  | none => rfl
  | some r =>
    have hcs := (stripPre_eq_some _ _ _).mp hsp
    have : p.isPrefixOf cs = true := by
      rw [List.isPrefixOf_iff_prefix]
      exact hcs ▸ List.prefix_append p r
    rw [this] at h
    exact absurd h (by simp)

/-- C7: decoding an entry name that has no separator, or whose trailing
segment after the last separator is not a decimal integer literal,
returns `none` (a value, not an error). -/
theorem c7_thm (s : String) :
    ('-' ∉ s.data → parse_timestamp_from_name s = none) ∧
    (∀ pre suf, rsplitDash s.data = some (pre, suf) → isIntLit suf = false →
      parse_timestamp_from_name s = none) := by
  constructor
  · intro hnm
    cases hp : parse_timestamp_from_name s with
    | none => rfl
    | some t =>
      obtain ⟨q, suf, hqs, _, _⟩ := parseTsChars_some_shape hp
      exact absurd (by rw [hqs]; simp : '-' ∈ s.data) hnm
  · intro pre suf hsplit hlit
    cases hp : parse_timestamp_from_name s with
    | none => rfl
    | some t =>
      obtain ⟨q, suf2, hqs, hnm2, hlit2⟩ := parseTsChars_some_shape hp
      rw [hqs, rsplitDash_append hnm2 q] at hsplit
      injection hsplit with hpair
      injection hpair with h1 h2
      subst h2
      rw [hlit] at hlit2
      exact absurd hlit2 (by simp)

/-- C7 witness: concrete instances of both parts of `c7_thm`. -/
theorem c7_witness :
    parse_timestamp_from_name "foobar" = none ∧
    parse_timestamp_from_name "@nixos-abc" = none :=
  ⟨(c7_thm "foobar").1 (by decide),
   (c7_thm "@nixos-abc").2 "@nixos".data "abc".data (by decide) (by decide)⟩

/-- C1 counterexample: for the source name `app` (which has no trailing
`-<digits>` suffix) and instant 1000, decoding the encoded entry name
`app-1000` yields `none`, not the pair `(app, 1000)` — the decoder is
prefix-based and does not round-trip general source names. -/
theorem c1_counterexample :
    snapName "app" 1000 = "app-1000" ∧
    parse_timestamp_from_name (snapName "app" 1000) = none := by decide

/-- C1 (amended): the decoder recovers only the timestamp, and only for
entry names built from the three recognized source names: for each
`n` among `@nixos`, `@storage`, `@dotfiles` and any `i64` instant `t`,
decoding the encoded name yields `some t`. -/
theorem c1_thm (t : Int) (h1 : -(2 ^ 63 : Int) ≤ t) (h2 : t ≤ 2 ^ 63 - 1) :
    parse_timestamp_from_name (snapName "@nixos" t) = some t ∧
    parse_timestamp_from_name (snapName "@storage" t) = some t ∧
    parse_timestamp_from_name (snapName "@dotfiles" t) = some t :=
  ⟨parseI64_intChars t h1 h2, parseI64_intChars t h1 h2, parseI64_intChars t h1 h2⟩

/-- C1 witness: `c1_thm` at the concrete instant 1000. -/
theorem c1_witness : parse_timestamp_from_name (snapName "@nixos" 1000) = some 1000 :=
  (c1_thm 1000 (by decide) (by decide)).1

/-- C8 (amended): the decoder recognizes a name only if it begins with
one of `@nixos-`, `@storage-`, `@dotfiles-`; any name (in particular any
name produced by Create) that begins with none of them decodes to
`none`; and on success the decoder returns only the timestamp, namely
the `i64` parse of the remainder after the matched pattern. -/
theorem c8_thm :
    (∀ name : String,
      (["@nixos-", "@storage-", "@dotfiles-"].all
          fun p => !(p.data.isPrefixOf name.data)) = true →
        parse_timestamp_from_name name = none) ∧
    (∀ (name : String) (ts : Int), parse_timestamp_from_name name = some ts →
      ∃ p ∈ ["@nixos-", "@storage-", "@dotfiles-"], ∃ rest,
        name.data = p.data ++ rest ∧ parseI64? rest = some ts) ∧
    (∀ (n : String) (t : Int),
      (["@nixos-", "@storage-", "@dotfiles-"].all
          fun p => !(p.data.isPrefixOf (snapName n t).data)) = true →
        parse_timestamp_from_name (snapName n t) = none) := by
  have main : ∀ name : String,
      (["@nixos-", "@storage-", "@dotfiles-"].all
          fun p => !(p.data.isPrefixOf name.data)) = true →
        parse_timestamp_from_name name = none := by
    intro name hall
    simp only [List.all_cons, List.all_nil, Bool.and_true, Bool.and_eq_true,
      Bool.not_eq_true'] at hall
    obtain ⟨ha, hb, hc⟩ := hall
    show parseTsChars name.data = none
    unfold parseTsChars
    rw [stripPre_none_of_not_isPre ha, stripPre_none_of_not_isPre hb,
      stripPre_none_of_not_isPre hc]
  refine ⟨main, ?_, fun n t => main (snapName n t)⟩
  intro name ts h
  replace h : parseTsChars name.data = some ts := h
  unfold parseTsChars at h
  cases h1 : stripPre "@nixos-".data name.data with
  | some rest =>
    rw [h1] at h
    exact ⟨"@nixos-", by simp, rest, (stripPre_eq_some _ _ _).mp h1, h⟩
  | none =>
    rw [h1] at h
    cases h2 : stripPre "@storage-".data name.data with
    | some rest =>
      rw [h2] at h
      exact ⟨"@storage-", by simp, rest, (stripPre_eq_some _ _ _).mp h2, h⟩
    | none =>
      rw [h2] at h
      cases h3 : stripPre "@dotfiles-".data name.data with
      | some rest =>
        rw [h3] at h
        exact ⟨"@dotfiles-", by simp, rest, (stripPre_eq_some _ _ _).mp h3, h⟩
      | none =>
        rw [h3] at h
        exact absurd h (by simp)

/-- C8 counterexample: the source name `@nixos-` is none of `@nixos`,
`@storage`, `@dotfiles`, yet the name Create produces for it at instant
7, namely `@nixos--7`, decodes to `some (-7)` rather than `none`. -/
theorem c8_counterexample :
    ("@nixos-" ≠ "@nixos" ∧ "@nixos-" ≠ "@storage" ∧ "@nixos-" ≠ "@dotfiles") ∧
    snapName (subvolNameOf (some (some "@nixos-"))) 7 = "@nixos--7" ∧
    parse_timestamp_from_name "@nixos--7" = some (-7) := by decide

/-- C8 witness: concrete instances of all three parts of `c8_thm`. -/
theorem c8_witness :
    parse_timestamp_from_name "plain" = none ∧
    parse_timestamp_from_name (snapName "app" 1) = none ∧
    (∃ p ∈ ["@nixos-", "@storage-", "@dotfiles-"], ∃ rest,
      ("@storage-42" : String).data = p.data ++ rest ∧ parseI64? rest = some 42) :=
  ⟨c8_thm.1 "plain" (by decide), c8_thm.2.2 "app" 1 (by decide),
   c8_thm.2.1 "@storage-42" 42 (by decide)⟩

/-- C3: an entry whose name fails to decode, or whose Volume Store `get`
fails, is never deleted by Cleanup: it is skipped without error. -/
theorem c3_thm (e : ScanEntry) (cutoff : DateTime)
    (h : decodeFails e = true ∨ e.getOk = false) :
    MainRs.cleanup_snapshot e cutoff = .skipped := by
  obtain ⟨fn, g, d⟩ := e
  cases fn with
  | none => rfl
  | some name =>
    cases hp : parse_timestamp_from_name name with
    | none => simp only [MainRs.cleanup_snapshot, hp]
    | some ts =>
      have hget : g = false := by
        rcases h with h | h
        · simp only [decodeFails, hp] at h
          exact absurd h (by simp)
        · exact h
      subst hget
      simp only [MainRs.cleanup_snapshot, hp]
      by_cases hge : optGe (timestampOptSingle ts) (some cutoff) = true <;> simp [hge]

/-- C3 witness: a directory entry named `not-a-snapshot` is skipped. -/
theorem c3_witness :
    MainRs.cleanup_snapshot ⟨some "not-a-snapshot", true, true⟩ ⟨0, 0⟩ = .skipped :=
  c3_thm ⟨some "not-a-snapshot", true, true⟩ ⟨0, 0⟩ (Or.inl (by decide))

/-- C4 (amended): Cleanup never deletes an entry whose decoded instant is
representable as a chrono `DateTime` and is `>=` the cutoff; the
comparison is strict, so an entry exactly at the cutoff is preserved. -/
theorem c4_thm (e : ScanEntry) (cutoff : DateTime) (name : String) (ts : Int)
    (hf : e.fileName = some name) (hp : parse_timestamp_from_name name = some ts)
    (hmin : chronoMinTs ≤ ts) (hmax : ts ≤ chronoMaxTs)
    (hge : dtGe ⟨ts, 0⟩ cutoff = true) :
    MainRs.cleanup_snapshot e cutoff = .skipped := by
  obtain ⟨fn, g, d⟩ := e
  simp only at hf
  subst hf
  unfold MainRs.cleanup_snapshot
  simp only [hp]
  have hts : timestampOptSingle ts = some ⟨ts, 0⟩ := by
    unfold timestampOptSingle
    rw [if_pos ⟨hmin, hmax⟩]
  rw [hts]
  simp only [optGe, hge, if_true]

/-- C4 witness: an entry whose decoded instant equals the cutoff exactly
is preserved. -/
theorem c4_witness :
    MainRs.cleanup_snapshot ⟨some "@nixos-500", true, true⟩ ⟨500, 0⟩ = .skipped :=
  c4_thm ⟨some "@nixos-500", true, true⟩ ⟨500, 0⟩ "@nixos-500" 500 rfl (by decide)
    (by decide) (by decide) (by decide)

/-- C4 counterexample: the entry `@nixos-9999999999999999` decodes to an
instant far greater than the cutoff 0, yet Cleanup deletes it, because
`timestamp_opt` returns `None` outside chrono's representable range and
`None >= Some(cutoff)` is false. -/
theorem c4_counterexample :
    parse_timestamp_from_name "@nixos-9999999999999999" = some 9999999999999999 ∧
    dtGe ⟨9999999999999999, 0⟩ ⟨0, 0⟩ = true ∧
    MainRs.cleanup_snapshot ⟨some "@nixos-9999999999999999", true, true⟩ ⟨0, 0⟩ =
      .deleted := by decide

/-- C2 counterexample: with two old deletable candidates where the first
candidate's delete fails, the sweep returns that error instead of
processing the second candidate and succeeding. -/
theorem c2_counterexample :
    CleanupRs.cleanup_snapshot ⟨some ⟨0, 0⟩, true, false⟩ ⟨100, 0⟩ = .error "delete" ∧
    CleanupRs.cleanup_snapshot ⟨some ⟨0, 0⟩, true, true⟩ ⟨100, 0⟩ = .ok .deleted ∧
    cleanupExecute [⟨some ⟨0, 0⟩, true, false⟩, ⟨some ⟨0, 0⟩, true, true⟩] ⟨100, 0⟩ =
      .error "delete" :=
  ⟨rfl, rfl, rfl⟩

/-- C2 (amended): when processing one candidate fails (in particular when
its delete fails), the Cleanup sweep aborts with that error; the
remaining candidates are not processed and the invocation fails. -/
theorem c2_thm (e : FsEntry) (rest : List FsEntry) (cutoff : DateTime)
    (s : String) (h : CleanupRs.cleanup_snapshot e cutoff = .error s) :
    cleanupExecute (e :: rest) cutoff = .error s := by
  unfold cleanupExecute scan_snapshots
  rw [h]

/-- C2 witness: `c2_thm` on a single candidate whose delete fails. -/
theorem c2_witness :
    cleanupExecute [⟨some ⟨0, 0⟩, true, false⟩] ⟨100, 0⟩ = .error "delete" :=
  c2_thm ⟨some ⟨0, 0⟩, true, false⟩ [] ⟨100, 0⟩ "delete" rfl

theorem create_snapshot_names (sv : SubvolSrc) (ts : Int) (name : String)
    (h : name ∈ (create_snapshot sv ts).1) :
    name = snapName (subvolNameOf sv.fileName) ts := by
  obtain ⟨fn, g, s, i⟩ := sv
  cases g <;> cases s <;> cases i <;> simp [create_snapshot] at h <;> exact h

theorem createLoop_names (ts : Int) : ∀ (subvols : List SubvolSrc) (name : String),
    name ∈ (createLoop ts subvols).1 → ∃ pre, name = snapName pre ts := by
  intro subvols
  induction subvols with
  | nil => intro name h; simp [createLoop] at h
  | cons sv rest ih =>
    intro name h
    unfold createLoop at h
    cases hcs : create_snapshot sv ts with
    | mk created ok =>
      rw [hcs] at h
      cases ok with
      | false =>
        simp only at h
        have : name ∈ (create_snapshot sv ts).1 := by rw [hcs]; exact h
        exact ⟨subvolNameOf sv.fileName, create_snapshot_names sv ts name this⟩
      | true =>
        simp only at h
        rw [List.mem_append] at h
        rcases h with h | h
        · have : name ∈ (create_snapshot sv ts).1 := by rw [hcs]; exact h
          exact ⟨subvolNameOf sv.fileName, create_snapshot_names sv ts name this⟩
        · exact ih name h

/-- C5: every entry created by one Create invocation (with two or more
sources) carries the identical timestamp suffix `-<now>`, because the
instant is captured once and shared. -/
theorem c5_thm (subvols : List SubvolSrc) (now : Int) (_hs : 2 ≤ subvols.length) :
    ∀ name ∈ (createExecute subvols now).1, ∃ pre, name = pre ++ "-" ++ intStr now := by
  intro name h
  obtain ⟨pre, hp⟩ := createLoop_names now subvols name h
  exact ⟨pre, hp⟩

/-- C5 witness: `c5_thm` on a two-source invocation at instant 5. -/
theorem c5_witness :
    ∃ pre, "@nixos-5" = pre ++ "-" ++ intStr 5 :=
  c5_thm [⟨some (some "@nixos"), true, true, true⟩,
    ⟨some (some "@storage"), true, true, true⟩] 5 (by decide) "@nixos-5" (by decide)

/-- C6: Delete with an empty target set fails immediately with the
no-targets error and performs zero Volume Store calls. -/
theorem c6_thm : deleteExecute [] = ([], some "Snapshots not specified") := rfl

/-- C9: when a source path's final segment is absent or not valid UTF-8,
Create does not fail at the naming step: it substitutes the literal
source name `unknown`, producing an entry named `unknown-<ts>`. -/
theorem c9_thm (fileName : Option (Option String)) (ts : Int)
    (h : fileName = none ∨ fileName = some none) :
    subvolNameOf fileName = "unknown" ∧
    snapName (subvolNameOf fileName) ts = "unknown" ++ "-" ++ intStr ts := by
  rcases h with rfl | rfl <;> exact ⟨rfl, rfl⟩

/-- C9 witness: `c9_thm` for a path with no final segment, at instant 7. -/
theorem c9_witness :
    subvolNameOf none = "unknown" ∧
    snapName (subvolNameOf none) 7 = "unknown" ++ "-" ++ intStr 7 :=
  c9_thm none 7 (Or.inl rfl)

/-- C10: List skips silently exactly when the Volume Store `get` on an
entry fails; when `get` succeeds but the metadata query `info` fails,
List aborts the entire listing with an error; when both succeed it
emits one record. -/
theorem c10_thm (e : ListEntry) (rest : List ListEntry) :
    (e.getOk = false → listExecute (e :: rest) = listExecute rest) ∧
    (e.getOk = true → e.info = none → listExecute (e :: rest) = .error e.path) ∧
    (e.getOk = true → ∀ g o, e.info = some (g, o) →
      list_snapshot e = .ok [⟨e.path, g, o⟩]) := by
  obtain ⟨p, g, i⟩ := e
  refine ⟨?_, ?_, ?_⟩
  · intro hg
    simp only at hg
    subst hg
    show (match list_snapshot ⟨p, false, i⟩ with
      | .error s => .error s
      | .ok rs => match listExecute rest with
        | .error s => .error s
        | .ok more => .ok (rs ++ more)) = listExecute rest
    cases listExecute rest <;> rfl
  · intro hg hi
    simp only at hg hi
    subst hg
    subst hi
    rfl
  · intro hg gg oo hi
    simp only at hg hi
    subst hg
    subst hi
    rfl

/-- C10 witness: concrete instances of all three parts of `c10_thm`. -/
theorem c10_witness :
    listExecute [⟨"entry1", false, some (1, 2)⟩] = .ok [] ∧
    listExecute [⟨"entry2", true, none⟩, ⟨"entry3", true, some (3, 4)⟩] = .error "entry2" ∧
    list_snapshot ⟨"entry4", true, some (5, 6)⟩ = .ok [⟨"entry4", 5, 6⟩] := by
  refine ⟨?_, ?_, ?_⟩
  · rw [(c10_thm ⟨"entry1", false, some (1, 2)⟩ []).1 rfl]
    rfl
  · exact (c10_thm ⟨"entry2", true, none⟩ [⟨"entry3", true, some (3, 4)⟩]).2.1 rfl rfl
  · exact (c10_thm ⟨"entry4", true, some (5, 6)⟩ []).2.2 rfl 5 6 rfl

end Btrsnap
